import Mathlib

/-!
Verification development for the edge-tts-mcp repository.

The Python sources are shallowly embedded:
  * Python strings are modelled as `List Char` (`PyStr`); `len` is `List.length`
    (both count code points).
  * `str.split()` (whitespace words), `str.split("|")`, `str.replace`,
    `str.strip`, `int(...)` and decimal rendering of naturals are given
    executable Lean definitions mirroring the CPython behaviour on the
    character classes the server uses (Unicode oddities such as non-ASCII
    digits or exotic whitespace are out of scope and noted at each definition).
  * The podcast job pipeline (`play_podcast`, `process_podcast_request`,
    `check_podcast_status`, `cleanup_old_requests`) is embedded as pure
    functions over an explicit job store; the external edge-tts backend is a
    parameter `synth : Nat → ConversationSegment → Except String Audio`, and
    file contents are byte lists.
  * The await-interleaving of the processing loop is embedded as an explicit
    event trace (`procTrace`) whose observation points are the suspension
    points of the Python coroutine.
-/

/-- Python strings, modelled as lists of code points. -/
abbrev PyStr := List Char

/-- The space character (U+0020), written via `Char.ofNat` for hygiene. -/
def spaceChar : Char := Char.ofNat 32

/-- The vertical-bar character U+007C, the internal sentinel of `chunk_text`. -/
def barChar : Char := Char.ofNat 124

/-- Python `str.split()` with no argument: maximal runs of non-whitespace.
CPython splits on Unicode whitespace; the server only feeds it ASCII text,
so `Char.isWhitespace` is the model. -/
def pyWords (s : PyStr) : List PyStr :=
  (s.splitOnP (fun c => c.isWhitespace)).filter (fun w => w ≠ [])

/-- Python `str.replace(pat, rep)` for a two-character pattern and
replacement, the only shape `chunk_text` uses (`". " → ".|"` and friends,
src/edge_tts_mcp_server.py line 208): leftmost, non-overlapping, scanning
resumes after each replacement. -/
def pyReplace2 (p1 p2 r1 r2 : Char) : PyStr → PyStr
  | [] => []
  | [c] => [c]
  | c :: d :: rest =>
    if c = p1 ∧ d = p2 then r1 :: r2 :: pyReplace2 p1 p2 r1 r2 rest
    else c :: pyReplace2 p1 p2 r1 r2 (d :: rest)

/-- Python `current_chunk += " " + piece` with the empty-chunk special case
(`if current_chunk: … else: current_chunk = piece`). -/
def addPiece (cur piece : PyStr) : PyStr :=
  if cur = [] then piece else cur ++ spaceChar :: piece

/-- State of the `chunk_text` loops: chunks emitted so far, current chunk. -/
abbrev ChunkState := List PyStr × PyStr

/-- Inner word loop of `chunk_text` (src/edge_tts_mcp_server.py lines 227-235):
fold one word into the state. Note the `else` branch appends `current_chunk`
unconditionally, even when it is empty. -/
def addWord (maxLength : Nat) (st : ChunkState) (word : PyStr) : ChunkState :=
  if st.2.length + word.length + 1 ≤ maxLength then
    (st.1, addPiece st.2 word)
  else
    (st.1 ++ [st.2], word)

/-- Outer sentence loop of `chunk_text` (src/edge_tts_mcp_server.py
lines 213-237): fold one sentence into the state. -/
def addSentence (maxLength : Nat) (st : ChunkState) (sentence : PyStr) : ChunkState :=
  if st.2.length + sentence.length + 1 ≤ maxLength then
    (st.1, addPiece st.2 sentence)
  else
    let chunks := if st.2 = [] then st.1 else st.1 ++ [st.2]
    if sentence.length > maxLength then
      (pyWords sentence).foldl (addWord maxLength) (chunks, [])
    else
      (chunks, sentence)

/-- `chunk_text` (src/edge_tts_mcp_server.py lines 196-242): split text into
chunks at sentence boundaries (`. `, `? `, `! ` rewritten to a `|` sentinel and
split), falling back to word boundaries for oversized sentences. -/
def chunk_text (text : PyStr) (maxLength : Nat) : List PyStr :=
  let sentences :=
    (pyReplace2 '!' spaceChar '!' barChar
      (pyReplace2 '?' spaceChar '?' barChar
        (pyReplace2 '.' spaceChar '.' barChar text))).splitOn barChar
  let st := sentences.foldl (addSentence maxLength) ([], [])
  if st.2 = [] then st.1 else st.1 ++ [st.2]

/-! ## Python integer parsing and rendering -/

/-- Value of an ASCII digit character. -/
def digitVal (c : Char) : Nat := c.toNat - 48

/-- Accumulate decimal digits left to right (the value of a digit string). -/
def parseDec (l : PyStr) : Nat :=
  l.foldl (fun a c => a * 10 + digitVal c) 0

/-- Digit tail of CPython `int(str)`: after the first digit, digits may be
separated by single underscores (`1_0` parses as `10`; leading, trailing or
doubled underscores are errors). -/
def parseUDigitsAux : Nat → PyStr → Option Nat
  | acc, [] => some acc
  | acc, c :: rest =>
    if c = Char.ofNat 95 then
      match rest with
      | [] => none
      | d :: rest2 => if d.isDigit then parseUDigitsAux (acc * 10 + digitVal d) rest2 else none
    else if c.isDigit then parseUDigitsAux (acc * 10 + digitVal c) rest
    else none

/-- Unsigned digit run of CPython `int(str)`: at least one digit, with
optional single underscores between digits. (CPython additionally accepts
non-ASCII decimal digits; the server only ever receives ASCII, so ASCII
digits are the model.) -/
def parseUDigits : PyStr → Option Nat
  | [] => none
  | c :: rest => if c.isDigit then parseUDigitsAux (digitVal c) rest else none

/-- CPython `int(s)` on a string: strip surrounding whitespace, then an
optional sign followed by an underscore-separated digit run; anything else
raises `ValueError`, modelled as `none`. -/
def pyInt? (s : PyStr) : Option Int :=
  let t := ((s.dropWhile Char.isWhitespace).reverse.dropWhile Char.isWhitespace).reverse
  match t with
  | c :: rest =>
    if c = Char.ofNat 43 then (parseUDigits rest).map Int.ofNat
    else if c = Char.ofNat 45 then (parseUDigits rest).map (fun n => -(n : Int))
    else (parseUDigits t).map Int.ofNat
  | [] => none

/-- Python slice `v[1:-1]`. -/
def pySlice1m1 (v : PyStr) : PyStr := (v.drop 1).dropLast

/-- Python `v.startswith(c)` for a single character. -/
def pyStartsWith (c : Char) : PyStr → Bool
  | [] => false
  | d :: _ => d = c

/-- Python `v.endswith(c)` for a single character. -/
def pyEndsWith (c : Char) (v : PyStr) : Bool := v.getLast? = some c

/-- The `validate_percentage` field validator shared by
src/podcast_tts_mcp_server.py lines 83-95 and src/edge_tts_mcp_server.py
lines 136-147: require a leading `+`/`-` and trailing `%`, then
`int(v[1:-1])` in `[0, 100]`; every raised `ValueError` is a rejection,
modelled as `false`. -/
def validate_percentage (v : PyStr) : Bool :=
  if ¬(pyStartsWith (Char.ofNat 43) v ∨ pyStartsWith (Char.ofNat 45) v) ∨ ¬ pyEndsWith (Char.ofNat 37) v then
    false
  else
    match pyInt? (pySlice1m1 v) with
    | some num => ¬(num < 0 ∨ num > 100)
    | none => false

/-- The spec's acceptance set, stated from its words for comparison with the
code's `validate_percentage`: a string matching the regular expression
pattern sign, one or more ASCII digits, percent, with the digit magnitude
in `[0, 100]`. -/
def specPercentagePattern (v : PyStr) : Bool :=
  match v with
  | [] => false
  | c :: rest =>
    (c = Char.ofNat 43 ∨ c = Char.ofNat 45) ∧ rest.getLast? = some (Char.ofNat 37) ∧
      (rest.dropLast ≠ [] ∧ rest.dropLast.all Char.isDigit ∧ parseDec rest.dropLast ≤ 100)

/-! ## Python decimal rendering and request ids -/

/-- Fuel-indexed most-significant-first decimal digits of a positive `Nat`. -/
def pyNatStrAux : Nat → Nat → PyStr
  | 0, _ => []
  | _ + 1, 0 => []
  | fuel + 1, n + 1 =>
    pyNatStrAux fuel ((n + 1) / 10) ++ [Nat.digitChar ((n + 1) % 10)]

/-- Python `str(n)` for a nonnegative integer (f-string interpolation of
`int(time.time())`). -/
def pyNatStr (n : Nat) : PyStr :=
  if n = 0 then [Char.ofNat 48] else pyNatStrAux (n + 1) n

/-- The request id of `play_podcast` (src/podcast_tts_mcp_server.py line 463):
`f"req_{int(time.time())}"`, where `t` models `int(time.time())`. Note there
is no disambiguator beyond the integer second. -/
def requestId (t : Nat) : String :=
  String.mk (("req_").data ++ pyNatStr t)

/-! ## Podcast server data model (src/podcast_tts_mcp_server.py) -/

/-- Python `str.strip()`: remove surrounding whitespace. -/
def pyStrip (s : String) : String :=
  String.mk (((s.data.dropWhile Char.isWhitespace).reverse.dropWhile Char.isWhitespace).reverse)

/-- Python `str.lower()`, modelled for ASCII via `Char.toLower` (the server's
roles and keys are ASCII). -/
def pyLower (s : String) : String := String.mk (s.data.map Char.toLower)

/-- A validated `ConversationSegment` (src/podcast_tts_mcp_server.py
lines 42-61): speaker normalized to lower case, text non-empty. -/
structure ConversationSegment where
  speaker : String
  text : String
deriving DecidableEq

/-- Audio file contents: a byte sequence. -/
abbrev Audio := List Nat

/-- Decidable equality of backend outcomes (used only to evaluate concrete
witnesses). -/
instance : DecidableEq (Except String Audio) := fun x y =>
  match x, y with
  | .ok a, .ok b => decidable_of_iff (a = b) (by simp)
  | .error a, .error b => decidable_of_iff (a = b) (by simp)
  | .ok _, .error _ => isFalse (by simp)
  | .error _, .ok _ => isFalse (by simp)

/-- One entry of `segment_details` (src/podcast_tts_mcp_server.py
lines 260-267). -/
structure SegDetail where
  index : Nat
  speaker : String
  voice : String
  text : String
  length : Nat
  word_count : Nat
deriving DecidableEq

/-- JSON-serializable values appearing in the server's response dicts.
`progress_percentage` is a Python float `round(x, 1)`; floats are modelled
as exact rationals with half-up rounding (no claim depends on the value). -/
inductive PyVal where
  | s (v : String)
  | i (v : Int)
  | q (v : ℚ)
  | errs (v : List (Nat × String))
  | segs (v : List SegDetail)
deriving DecidableEq

/-- A job record of `PODCAST_REQUESTS` (src/podcast_tts_mcp_server.py
lines 500-513). `errors` entries model the dicts
`{"segment": i, "error": msg}` as pairs. -/
structure JobRecord where
  status : String
  submitted_at : Nat
  progress : Nat
  total_segments : Nat
  errors : List (Nat × String)
  settings : List (String × String)
  result : Option (List (String × PyVal))
deriving DecidableEq

/-- The global `PODCAST_REQUESTS` dict: request id to job record.
Python dict keys are unique; theorems carry that as a `Nodup` hypothesis. -/
abbrev JobStore := List (String × JobRecord)

/-- Python `dict.update`: overwrite values of existing keys in place,
append unseen keys in order. (`response[k] = v` is `update` with a
singleton.) -/
def pyDictUpdate (d e : List (String × PyVal)) : List (String × PyVal) :=
  (d.map (fun kv => match e.lookup kv.1 with
    | some v => (kv.1, v)
    | none => kv)) ++ e.filter (fun kv => (d.lookup kv.1).isNone)

/-- `PODCAST_VOICES` (src/podcast_tts_mcp_server.py lines 35-38). -/
def PODCAST_VOICES : List (String × String) :=
  [("male", "en-US-GuyNeural"), ("female", "en-US-AriaNeural")]

/-- `REQUEST_EXPIRY_SECONDS` (src/podcast_tts_mcp_server.py line 99). -/
def REQUEST_EXPIRY_SECONDS : Nat := 3600

/-- One cycle of the Reaper `cleanup_old_requests`
(src/podcast_tts_mcp_server.py lines 165-191): delete every record with
`now - submitted_at > 3600`. Timestamps are whole seconds (`Nat`); Python's
negative differences and Nat's truncated subtraction both compare `≤ 3600`
when the clock reads earlier than the submission. -/
def cleanup_old_requests_cycle (now : Nat) (store : JobStore) : JobStore :=
  store.filter (fun kv => ¬(now - kv.2.submitted_at > REQUEST_EXPIRY_SECONDS))

/-- Truthiness of `request_data["result"]`: a non-`None`, non-empty dict. -/
def resultTruthy (rd : JobRecord) : Bool :=
  match rd.result with
  | some r => r ≠ []
  | none => false

/-- Python `round(x, 1)` on the exact rational (float representation and
round-half-even are abstracted; no claim concerns this value). -/
def pyRound1 (x : ℚ) : ℚ := (round (x * 10) : ℤ) / 10

/-- `check_podcast_status` (src/podcast_tts_mcp_server.py lines 555-641) as a
pure function of the store. `fmt` stands for
`time.strftime("%Y-%m-%d %H:%M:%S", time.localtime(submitted_at))`, wall-clock
formatting being outside the model. Note lines 609-618 merge the stored
result dict into the response with `dict.update`, overwriting colliding keys
such as `status`. -/
def check_podcast_status (fmt : Nat → String) (store : JobStore) (request_id : String) :
    List (String × PyVal) :=
  match store.lookup request_id with
  | none =>
    [("status", .s "not_found"),
     ("message", .s ("No podcast TTS request found with ID: " ++ request_id))]
  | some rd =>
    let response : List (String × PyVal) :=
      [("status", .s rd.status),
       ("request_id", .s request_id),
       ("progress", .i rd.progress),
       ("total_segments", .i rd.total_segments),
       ("progress_percentage",
         if rd.total_segments > 0 then
           .q (pyRound1 ((rd.progress : ℚ) / (rd.total_segments : ℚ) * 100))
         else .i 0),
       ("submitted_at", .i rd.submitted_at),
       ("submitted_at_formatted", .s (fmt rd.submitted_at))]
    let response :=
      if rd.status = "completed" ∧ resultTruthy rd then
        pyDictUpdate response (rd.result.getD [])
      else if rd.status = "failed" ∧ resultTruthy rd then
        pyDictUpdate response (rd.result.getD [])
      else response
    if rd.errors ≠ [] then
      pyDictUpdate response [("errors", .errs rd.errors)]
    else response

/-! ## The job processor -/

/-- Local state of the segment loop of `process_podcast_request`:
successful artifacts in append order, their detail records, the structured
errors appended so far, and the last `progress` written. -/
structure ProcState where
  temp_files : List Audio
  segment_details : List SegDetail
  errors : List (Nat × String)
  progress : Nat
deriving DecidableEq

/-- One iteration of the segment loop (src/podcast_tts_mcp_server.py
lines 228-282): write `progress := i`, resolve the voice, synthesize;
on success append the artifact and a detail record, on failure append
`{"segment": i, "error": msg}` and continue. `synth` models the edge-tts
backend (`generate_speech`): audio bytes or a raised error.
`PODCAST_VOICES[speaker]` cannot raise because the speaker was validated
to be a key; `getD` supplies the impossible default. -/
def procStep (synth : Nat → ConversationSegment → Except String Audio)
    (st : ProcState) (iseg : Nat × ConversationSegment) : ProcState :=
  let st := { st with progress := iseg.1 }
  let voice := (PODCAST_VOICES.lookup iseg.2.speaker).getD ""
  match synth iseg.1 iseg.2 with
  | .ok audio =>
    { st with
      temp_files := st.temp_files ++ [audio],
      segment_details := st.segment_details ++
        [⟨iseg.1, iseg.2.speaker, voice, iseg.2.text, iseg.2.text.length,
          (pyWords iseg.2.text.data).length⟩] }
  | .error e => { st with errors := st.errors ++ [(iseg.1, e)] }

/-- `process_podcast_request` (src/podcast_tts_mcp_server.py lines 193-384)
as a pure function: returns the terminal job record together with the final
concatenated artifact, `none` when the combined output file is never written
(the `len(temp_files) > 0` guard, lines 287-351). `procTime` stands for the
wall-clock `f"{duration:.2f}s"` string. -/
def process_podcast_request (synth : Nat → ConversationSegment → Except String Audio)
    (request_id : String) (segments : List ConversationSegment) (procTime : String)
    (rd : JobRecord) : JobRecord × Option Audio :=
  let n := segments.length
  let rd := { rd with status := "processing", progress := 0, total_segments := n }
  let st := segments.enum.foldl (procStep synth) ⟨[], [], [], 0⟩
  let rd := { rd with errors := rd.errors ++ st.errors, progress := st.progress }
  if st.temp_files.length > 0 then
    let result : List (String × PyVal) :=
      [("status", .s "success"),
       ("segments_processed", .i st.temp_files.length),
       ("total_segments", .i n),
       ("segments", .segs st.segment_details),
       ("total_words", .i ((st.segment_details.map (fun d => d.word_count)).sum : Nat)),
       ("audio_file", .s ("podcast_conversation_" ++ request_id ++ ".mp3")),
       ("processing_time", .s procTime)]
    ({ rd with status := "completed", result := some result, progress := n },
      some st.temp_files.flatten)
  else
    let result : List (String × PyVal) :=
      [("status", .s "error"),
       ("error", .s "No audio segments were successfully generated"),
       ("error_type", .s "ProcessingError")]
    ({ rd with status := "failed", result := some result }, none)

/-! ## Submission (`play_podcast`) -/

/-- `next((k for k in segment.keys() if k.lower() == target), target)`
(src/podcast_tts_mcp_server.py lines 477-478). -/
def findKeyCI (seg : List (String × String)) (target : String) : String :=
  (((seg.map Prod.fst).find? (fun k => pyLower k = target)).getD target)

/-- Whether a raw entry has a key lowering to `target`. -/
def hasKeyCI (seg : List (String × String)) (target : String) : Bool :=
  (seg.map Prod.fst).any (fun k => pyLower k = target)

/-- Retention test of `play_podcast`: the entry has both a speaker key and a
text key, compared case-insensitively (lines 477-480). -/
def keepEntry (seg : List (String × String)) : Bool :=
  hasKeyCI seg "speaker" ∧ hasKeyCI seg "text"

/-- The `speaker` field validator (src/podcast_tts_mcp_server.py
lines 47-53). -/
def validate_speaker (v : String) : Except String String :=
  if pyLower v = "male" ∨ pyLower v = "female" then .ok (pyLower v)
  else .error "Speaker must be either male or female"

/-- The `text` field validator (src/podcast_tts_mcp_server.py lines 55-61). -/
def validate_text_not_empty (v : String) : Except String String :=
  if pyStrip v = "" then .error "Text cannot be empty" else .ok v

/-- `ConversationSegment(speaker=…, text=…)`: pydantic runs the field
validators in declaration order. -/
def mkConversationSegment (speaker text : String) : Except String ConversationSegment := do
  let s ← validate_speaker speaker
  let t ← validate_text_not_empty text
  pure ⟨s, t⟩

/-- The conversion loop of `play_podcast` (src/podcast_tts_mcp_server.py
lines 474-484): entries missing either key (case-insensitively) are skipped,
the rest are validated in order into `validated_segments`; the first
validation failure aborts the submission. -/
def convertSegments : List (List (String × String)) → Except String (List ConversationSegment)
  | [] => .ok []
  | seg :: rest =>
    let sk := findKeyCI seg "speaker"
    let tk := findKeyCI seg "text"
    match seg.lookup sk, seg.lookup tk with
    | some sv, some tv => do
      let c ← mkConversationSegment sv tv
      let cs ← convertSegments rest
      pure (c :: cs)
    | _, _ => convertSegments rest

/-- The `conversation` validator of `PodcastConversation`
(src/podcast_tts_mcp_server.py lines 69-81): non-empty, total text length
at most 64000. -/
def validate_conversation (v : List ConversationSegment) :
    Except String (List ConversationSegment) :=
  if v = [] then .error "Conversation cannot be empty"
  else if (v.map (fun s => s.text.length)).sum > 64000 then
    .error "Total conversation length exceeds maximum (64000 chars)."
  else .ok v

/-- `PodcastConversation(conversation=…, rate=…, volume=…)`: pydantic runs the
validators in field-declaration order. -/
def mkPodcastConversation (conv : List ConversationSegment) (rate volume : String) :
    Except String (List ConversationSegment × String × String) := do
  let c ← validate_conversation conv
  if validate_percentage rate.data then
    if validate_percentage volume.data then pure (c, rate, volume)
    else .error ("Invalid percentage format: " ++ volume)
  else .error ("Invalid percentage format: " ++ rate)

/-- Result of a `play_podcast` submission: either the JSON response fields
(request id, message, `total_segments`) together with the stored record and
the validated segments handed to the background task, or the error response. -/
inductive SubmitResult where
  | submitted (request_id : String) (message : String) (total_segments : Nat)
      (record : JobRecord) (segments : List ConversationSegment)
  | error (msg : String)
deriving DecidableEq

/-- The request id of a submission, when it succeeded. -/
def SubmitResult.rid : SubmitResult → Option String
  | .submitted r _ _ _ _ => some r
  | .error _ => none

/-- `play_podcast` (src/podcast_tts_mcp_server.py lines 436-546) as a pure
function of the submission second `t` (`int(time.time())`): build the id,
convert and validate the conversation, store the initial record, and hand the
segments to the background processor. Any raised validation error becomes the
error response. -/
def play_podcast (t : Nat) (conversation : List (List (String × String)))
    (rate volume : String) : SubmitResult :=
  let request_id := requestId t
  match convertSegments conversation with
  | .error e => .error e
  | .ok validated =>
    match mkPodcastConversation validated rate volume with
    | .error e => .error e
    | .ok (segments, r, v) =>
      .submitted request_id
        ("Podcast TTS request submitted with " ++ String.mk (pyNatStr segments.length) ++
          " segments. Use check_podcast_status to monitor progress.")
        segments.length
        { status := "submitted", submitted_at := t, progress := 0,
          total_segments := segments.length, errors := [],
          settings := [("rate", r), ("volume", v)], result := none }
        segments

/-! ## The processing loop as an event trace -/

/-- Observable events of one `process_podcast_request` run, in program order:
status writes, `progress` writes, and the start and end (with success flag) of
each segment's synthesis. Reads by `check_podcast_status` interleave at the
coroutine's suspension points between events. -/
inductive ProcEvent where
  | setStatus (s : String)
  | setProgress (v : Nat)
  | synthStart (i : Nat)
  | synthEnd (i : Nat) (ok : Bool)
deriving DecidableEq

/-- The per-segment event block (src/podcast_tts_mcp_server.py lines 228-282):
`progress := i` under the lock, then the synthesis await, then its outcome. -/
def segBlock (ok : Nat → Bool) (i : Nat) : List ProcEvent :=
  [.setProgress i, .synthStart i, .synthEnd i (ok i)]

/-- The event trace of `process_podcast_request` for `n` segments whose
synthesis outcomes are `ok`: the initial status/progress writes
(lines 212-215), the segment blocks in order, and the terminal transition
(lines 354-361, `completed` also rewrites `progress := n`). -/
def procTrace (n : Nat) (ok : Nat → Bool) : List ProcEvent :=
  [.setStatus "processing", .setProgress 0]
    ++ ((List.range n).map (segBlock ok)).flatten
    ++ (if (List.range n).any ok then [.setStatus "completed", .setProgress n]
        else [.setStatus "failed"])

/-- The stored `progress` after a prefix of events (last write wins; the
record is created with `progress = 0`). -/
def progressAt (p : List ProcEvent) : Nat :=
  p.foldl (fun a e => match e with | .setProgress v => v | _ => a) 0

/-- How many segments have started synthesis in a prefix of events. -/
def startedAt (p : List ProcEvent) : Nat :=
  (p.filter (fun e => match e with | .synthStart _ => true | _ => false)).length

/-- How many segments have finished synthesis (successfully or not) in a
prefix of events. -/
def finishedAt (p : List ProcEvent) : Nat :=
  (p.filter (fun e => match e with | .synthEnd _ _ => true | _ => false)).length

/-- The `progress` values written in a prefix of events, in order. -/
def progressWrites (p : List ProcEvent) : List Nat :=
  p.filterMap (fun e => match e with | .setProgress v => some v | _ => none)

/-! ## Proof-side auxiliary definitions -/

/-- Undo the `chunk_text` sentinel: map the bar back to the space it replaced
(proof infrastructure, not source code). -/
def unbar (c : Char) : Char := if c = barChar then spaceChar else c

/-- The word multiset represented by a `chunk_text` loop state: words of the
emitted chunks, then words of the current chunk (proof infrastructure). -/
def stateWords (st : ChunkState) : List PyStr :=
  (st.1.map pyWords).flatten ++ pyWords st.2

/-- A chunk is within bounds or is a single whitespace-free word (the loop
invariant behind the chunk-size bound; proof infrastructure). -/
def chunkOk (maxLength : Nat) (c : PyStr) : Prop :=
  c.length ≤ maxLength ∨ ∀ ch ∈ c, ch.isWhitespace = false

/-- The spec's worked example conversation (two segments, both keys present). -/
def demoConversation : List (List (String × String)) :=
  [[("speaker", "male"), ("text", "Hello!")],
   [("speaker", "female"), ("text", "Hi there!")]]

/-- A backend that succeeds on every segment with distinct bytes. -/
def demoSynth : Nat → ConversationSegment → Except String Audio :=
  fun i _ => .ok [i, i + 7]

/-- A fixed stand-in for `time.strftime` output. -/
def demoFmt : Nat → String := fun _ => "2026-01-01 00:00:00"

/-- The job store after submitting the spec's example at second 100 and
running the processor with an all-success backend: one record, terminal
status `completed`. -/
def demoStore : JobStore :=
  match play_podcast 100 demoConversation "+10%" "+0%" with
  | .submitted rid _ _ rec segs =>
      [(rid, (process_podcast_request demoSynth rid segs "0.10s" rec).1)]
  | .error _ => []

/-! # Theorems

## Generic lemmas about whitespace word splitting -/

theorem modifyHead_append_ne_nil {α : Type} (f : α → α) (xs ys : List α) (h : xs ≠ []) :
    (xs ++ ys).modifyHead f = xs.modifyHead f ++ ys := by
  cases xs with
  | nil => exact absurd rfl h
  | cons a l => simp

theorem splitOnP_sep_append {α : Type} (p : α → Bool) (sep : α) (hsep : p sep = true)
    (a b : List α) : (a ++ sep :: b).splitOnP p = a.splitOnP p ++ b.splitOnP p := by
  induction a with
  | nil => simp [List.splitOnP_cons, hsep, List.splitOnP_nil]
  | cons c a ih =>
    by_cases hc : p c
    · simp [List.splitOnP_cons, hc, ih]
    · simp only [List.cons_append, List.splitOnP_cons, hc, if_neg, Bool.false_eq_true,
        not_false_eq_true, ih]
      rw [modifyHead_append_ne_nil _ _ _ (List.splitOnP_ne_nil _ _)]

theorem pyWords_nil : pyWords [] = [] := by
  simp [pyWords, List.splitOnP_nil]

theorem pyWords_sep_append (sep : Char) (hs : sep.isWhitespace = true) (a b : PyStr) :
    pyWords (a ++ sep :: b) = pyWords a ++ pyWords b := by
  unfold pyWords
  rw [splitOnP_sep_append _ sep hs, List.filter_append]

theorem not_p_of_mem_splitOnP {α : Type} (p : α → Bool) (s : List α) :
    ∀ g ∈ s.splitOnP p, ∀ c ∈ g, p c = false := by
  induction s with
  | nil =>
    intro g hg c hc
    rw [List.splitOnP_nil, List.mem_singleton] at hg
    subst hg
    simp at hc
  | cons x s ih =>
    intro g hg c hc
    rw [List.splitOnP_cons] at hg
    by_cases hx : p x
    · rw [if_pos hx] at hg
      rcases List.mem_cons.mp hg with h | h
      · subst h; simp at hc
      · exact ih g h c hc
    · rw [if_neg hx] at hg
      cases hsp : s.splitOnP p with
      | nil => exact absurd hsp (List.splitOnP_ne_nil _ _)
      | cons g0 gs =>
        rw [hsp, List.modifyHead] at hg
        rcases List.mem_cons.mp hg with h | h
        · subst h
          rcases List.mem_cons.mp hc with h' | h'
          · subst h'; simpa using hx
          · exact ih g0 (hsp ▸ List.mem_cons_self g0 gs) c h'
        · exact ih g (hsp ▸ List.mem_cons_of_mem g0 h) c hc

theorem pyWords_singleton (w : PyStr) (hne : w ≠ [])
    (hws : ∀ c ∈ w, c.isWhitespace = false) : pyWords w = [w] := by
  unfold pyWords
  rw [List.splitOnP_eq_single]
  · simp [hne]
  · intro x hx
    simp [hws x hx]

theorem mem_pyWords (w : PyStr) (s : PyStr) (h : w ∈ pyWords s) :
    w ≠ [] ∧ ∀ c ∈ w, c.isWhitespace = false := by
  unfold pyWords at h
  rw [List.mem_filter] at h
  refine ⟨by simpa using h.2, fun c hc => ?_⟩
  exact not_p_of_mem_splitOnP _ s w h.1 c hc

theorem pyWords_eq_self_singleton (w : PyStr) (s : PyStr) (h : w ∈ pyWords s) :
    pyWords w = [w] :=
  pyWords_singleton w (mem_pyWords w s h).1 (mem_pyWords w s h).2

theorem intercalate_cons₂ {α : Type} (s a b : List α) (L : List (List α)) :
    List.intercalate s (a :: b :: L) = a ++ s ++ List.intercalate s (b :: L) := by
  simp [List.intercalate, List.intersperse_cons_cons, List.append_assoc]

theorem pyWords_intercalate (L : List PyStr) :
    pyWords (List.intercalate [spaceChar] L) = (L.map pyWords).flatten := by
  induction L with
  | nil => simp [List.intercalate, pyWords_nil]
  | cons a L ih =>
    cases L with
    | nil => simp [List.intercalate]
    | cons b L' =>
      rw [intercalate_cons₂, List.append_assoc, List.singleton_append,
        pyWords_sep_append spaceChar (by decide)]
      simp [ih]

theorem map_unbar_of_not_bar (s : PyStr) (h : barChar ∉ s) : s.map unbar = s := by
  induction s with
  | nil => rfl
  | cons c s ih =>
    have hc : c ≠ barChar := fun hc => h (hc ▸ List.mem_cons_self c s)
    simp only [List.map_cons, unbar, if_neg hc]
    rw [ih (fun hm => h (List.mem_cons_of_mem c hm))]

theorem map_unbar_pyReplace2 (x : Char) (hx : x ≠ barChar) (s : PyStr) :
    (pyReplace2 x spaceChar x barChar s).map unbar = s.map unbar := by
  induction s using pyReplace2.induct x spaceChar x barChar with
  | case1 => rfl
  | case2 c => rfl
  | case3 c d rest h ih =>
    obtain ⟨rfl, rfl⟩ := h
    rw [pyReplace2, if_pos ⟨rfl, rfl⟩]
    simp only [List.map_cons, ih]
    simp [unbar, if_neg hx, barChar, spaceChar]
  | case4 c d rest h ih =>
    rw [pyReplace2, if_neg h]
    simp only [List.map_cons] at ih ⊢
    rw [ih]

theorem map_unbar_intercalate (L : List PyStr) (h : ∀ g ∈ L, barChar ∉ g) :
    (List.intercalate [barChar] L).map unbar = List.intercalate [spaceChar] L := by
  induction L with
  | nil => simp [List.intercalate]
  | cons a L ih =>
    cases L with
    | nil =>
      simp only [List.intercalate, List.intersperse_singleton, List.flatten_cons,
        List.flatten_nil, List.append_nil]
      exact map_unbar_of_not_bar a (h a (List.mem_cons_self a []))
    | cons b L' =>
      rw [intercalate_cons₂, intercalate_cons₂]
      simp only [List.map_append]
      rw [map_unbar_of_not_bar a (h a (List.mem_cons_self a _)),
        ih (fun g hg => h g (List.mem_cons_of_mem a hg))]
      norm_num [unbar, barChar, spaceChar]

theorem flatten_pyWords_splitOn_bar (s : PyStr) :
    ((s.splitOn barChar).map pyWords).flatten = pyWords (s.map unbar) := by
  have hfree : ∀ g ∈ s.splitOn barChar, barChar ∉ g := by
    intro g hg hc
    have := not_p_of_mem_splitOnP (fun c => c == barChar) s g (by simpa [List.splitOn] using hg)
      barChar hc
    simp at this
  have h1 : List.intercalate [barChar] (s.splitOn barChar) = s :=
    List.intercalate_splitOn s barChar
  calc ((s.splitOn barChar).map pyWords).flatten
      = pyWords (List.intercalate [spaceChar] (s.splitOn barChar)) :=
        (pyWords_intercalate _).symm
    _ = pyWords ((List.intercalate [barChar] (s.splitOn barChar)).map unbar) := by
        rw [map_unbar_intercalate _ hfree]
    _ = pyWords (s.map unbar) := by rw [h1]

/-! ## The `chunk_text` loop invariants -/

theorem pyWords_addPiece (cur piece : PyStr) :
    pyWords (addPiece cur piece) = pyWords cur ++ pyWords piece := by
  unfold addPiece
  split
  · simp [*, pyWords_nil]
  · exact pyWords_sep_append spaceChar (by decide) cur piece

theorem stateWords_addWord (maxLength : Nat) (st : ChunkState) (w : PyStr)
    (hw : pyWords w = [w]) :
    stateWords (addWord maxLength st w) = stateWords st ++ [w] := by
  unfold addWord
  split
  · simp [stateWords, pyWords_addPiece, hw, List.append_assoc]
  · simp [stateWords, List.map_append, List.flatten_append, hw, List.append_assoc,
      pyWords_nil]

theorem stateWords_foldl_addWord (maxLength : Nat) (ws : List PyStr)
    (hws : ∀ w ∈ ws, pyWords w = [w]) (st : ChunkState) :
    stateWords (ws.foldl (addWord maxLength) st) = stateWords st ++ ws := by
  induction ws generalizing st with
  | nil => simp
  | cons w ws ih =>
    rw [List.foldl_cons, ih (fun w' hw' => hws w' (List.mem_cons_of_mem w hw')),
      stateWords_addWord maxLength st w (hws w (List.mem_cons_self w ws))]
    simp

theorem stateWords_addSentence (maxLength : Nat) (st : ChunkState) (sn : PyStr) :
    stateWords (addSentence maxLength st sn) = stateWords st ++ pyWords sn := by
  unfold addSentence
  split
  · simp [stateWords, pyWords_addPiece, List.append_assoc]
  · have hchunks : stateWords (if st.2 = [] then st.1 else st.1 ++ [st.2], ([] : PyStr)) =
        stateWords st := by
      unfold stateWords
      split
      · simp [*, pyWords_nil]
      · simp [List.map_append, List.flatten_append, pyWords_nil]
    split
    · split
      · rw [stateWords_foldl_addWord maxLength (pyWords sn)
          (fun w hw => pyWords_eq_self_singleton w sn hw)]
        simp [stateWords, pyWords_nil, *]
      · simp [stateWords, pyWords_nil, *]
    · split
      · rw [stateWords_foldl_addWord maxLength (pyWords sn)
          (fun w hw => pyWords_eq_self_singleton w sn hw)]
        simp [stateWords, List.map_append, List.flatten_append, pyWords_nil,
          List.append_assoc]
      · simp [stateWords, List.map_append, List.flatten_append, List.append_assoc]

theorem stateWords_foldl_addSentence (maxLength : Nat) (sentences : List PyStr)
    (st : ChunkState) :
    stateWords (sentences.foldl (addSentence maxLength) st) =
      stateWords st ++ (sentences.map pyWords).flatten := by
  induction sentences generalizing st with
  | nil => simp
  | cons sn sentences ih =>
    rw [List.foldl_cons, ih, stateWords_addSentence]
    simp [List.append_assoc]

theorem flatten_pyWords_chunk_text (text : PyStr) (maxLength : Nat) :
    ((chunk_text text maxLength).map pyWords).flatten =
      stateWords (((pyReplace2 '!' spaceChar '!' barChar
        (pyReplace2 '?' spaceChar '?' barChar
          (pyReplace2 '.' spaceChar '.' barChar text))).splitOn barChar).foldl
            (addSentence maxLength) ([], [])) := by
  simp only [chunk_text]
  split
  · simp only [stateWords, *, pyWords_nil, List.append_nil]
  · simp [stateWords, List.map_append, List.flatten_append, pyWords_nil]

theorem chunk_text_words (text : PyStr) (maxLength : Nat) (hbar : barChar ∉ text) :
    ((chunk_text text maxLength).map pyWords).flatten = pyWords text := by
  rw [flatten_pyWords_chunk_text, stateWords_foldl_addSentence]
  have hbase : stateWords (([], []) : ChunkState) = [] := by
    simp [stateWords, pyWords_nil]
  rw [hbase, List.nil_append, flatten_pyWords_splitOn_bar]
  rw [map_unbar_pyReplace2 '!' (by decide), map_unbar_pyReplace2 '?' (by decide),
    map_unbar_pyReplace2 '.' (by decide), map_unbar_of_not_bar text hbar]

theorem addPiece_length (cur piece : PyStr) :
    (addPiece cur piece).length =
      if cur = [] then piece.length else cur.length + 1 + piece.length := by
  unfold addPiece
  split
  · simp [*]
  · simp [*]
    omega

theorem chunkOk_addWord (maxLength : Nat) (st : ChunkState) (w : PyStr)
    (hw : ∀ c ∈ w, c.isWhitespace = false)
    (h1 : ∀ c ∈ st.1, chunkOk maxLength c) (h2 : chunkOk maxLength st.2) :
    (∀ c ∈ (addWord maxLength st w).1, chunkOk maxLength c) ∧
      chunkOk maxLength (addWord maxLength st w).2 := by
  unfold addWord
  split
  · refine ⟨h1, Or.inl ?_⟩
    rw [addPiece_length]
    split <;> omega
  · refine ⟨fun c hc => ?_, Or.inr hw⟩
    rcases List.mem_append.mp hc with h | h
    · exact h1 c h
    · rw [List.mem_singleton] at h
      exact h ▸ h2

theorem chunkOk_foldl_addWord (maxLength : Nat) (ws : List PyStr)
    (hws : ∀ w ∈ ws, ∀ c ∈ w, c.isWhitespace = false) (st : ChunkState)
    (h1 : ∀ c ∈ st.1, chunkOk maxLength c) (h2 : chunkOk maxLength st.2) :
    (∀ c ∈ (ws.foldl (addWord maxLength) st).1, chunkOk maxLength c) ∧
      chunkOk maxLength (ws.foldl (addWord maxLength) st).2 := by
  induction ws generalizing st with
  | nil => exact ⟨h1, h2⟩
  | cons w ws ih =>
    rw [List.foldl_cons]
    have step := chunkOk_addWord maxLength st w (hws w (List.mem_cons_self w ws)) h1 h2
    exact ih (fun w' hw' => hws w' (List.mem_cons_of_mem w hw')) _ step.1 step.2

theorem chunkOk_addSentence (maxLength : Nat) (st : ChunkState) (sn : PyStr)
    (h1 : ∀ c ∈ st.1, chunkOk maxLength c) (h2 : chunkOk maxLength st.2) :
    (∀ c ∈ (addSentence maxLength st sn).1, chunkOk maxLength c) ∧
      chunkOk maxLength (addSentence maxLength st sn).2 := by
  have hmem : ∀ c, c ∈ st.1 ++ [st.2] → chunkOk maxLength c := by
    intro c hc
    rcases List.mem_append.mp hc with h | h
    · exact h1 c h
    · rw [List.mem_singleton] at h
      exact h ▸ h2
  unfold addSentence
  split
  · refine ⟨h1, Or.inl ?_⟩
    rw [addPiece_length]
    split <;> omega
  · split
    · split
      · exact chunkOk_foldl_addWord maxLength (pyWords sn)
          (fun w hw => (mem_pyWords w sn hw).2) _ h1 (Or.inl (Nat.zero_le _))
      · refine ⟨h1, Or.inl ?_⟩
        show sn.length ≤ maxLength
        omega
    · split
      · exact chunkOk_foldl_addWord maxLength (pyWords sn)
          (fun w hw => (mem_pyWords w sn hw).2) _ hmem (Or.inl (Nat.zero_le _))
      · refine ⟨hmem, Or.inl ?_⟩
        show sn.length ≤ maxLength
        omega

theorem chunkOk_chunk_text (text : PyStr) (maxLength : Nat) :
    ∀ c ∈ chunk_text text maxLength, chunkOk maxLength c := by
  have hfold : ∀ (sentences : List PyStr) (st : ChunkState),
      (∀ c ∈ st.1, chunkOk maxLength c) → chunkOk maxLength st.2 →
      (∀ c ∈ (sentences.foldl (addSentence maxLength) st).1, chunkOk maxLength c) ∧
        chunkOk maxLength (sentences.foldl (addSentence maxLength) st).2 := by
    intro sentences
    induction sentences with
    | nil => intro st h1 h2; exact ⟨h1, h2⟩
    | cons sn sentences ih =>
      intro st h1 h2
      rw [List.foldl_cons]
      have step := chunkOk_addSentence maxLength st sn h1 h2
      exact ih _ step.1 step.2
  simp only [chunk_text]
  intro c hc
  split at hc
  · exact (hfold _ _ (by simp) (Or.inl (Nat.zero_le _))).1 c hc
  · rcases List.mem_append.mp hc with hm | hm
    · exact (hfold _ _ (by simp) (Or.inl (Nat.zero_le _))).1 c hm
    · rw [List.mem_singleton] at hm
      exact hm ▸ (hfold _ _ (by simp) (Or.inl (Nat.zero_le _))).2

/-! ## Claim C6 -/

/-- Claim C6, counterexample: the claim as stated is false. With maximum
size 2 and input `"ab cd"`, `chunk_text` emits an empty chunk (the inner word
loop appends the empty current chunk before a word that does not fit), and
with input `"a|b"` the space-joined chunks do not reproduce the original word
sequence, because the text's own `|` characters are confused with the
sentinel that `chunk_text` inserts. -/
theorem c6_counterexample_empty_chunk_and_bar :
    ([] : PyStr) ∈ chunk_text ("ab cd").data 2 ∧
      pyWords (List.intercalate [spaceChar] (chunk_text ("a|b").data 100)) ≠
        pyWords ("a|b").data := by
  decide

/-- Claim C6, amended: for every input text containing no `|` character and
every maximum chunk size at least 1, the space-joined concatenation of the
chunks returned by `chunk_text` reproduces the original word sequence with no
word dropped, and every chunk either fits in the maximum size or is itself a
single (whitespace-free) word of the text exceeding it. (The claim's
no-empty-chunk conjunct is dropped and its round-trip conjunct is restricted
to `|`-free inputs, as the counterexample forces.) -/
theorem c6_chunk_text_roundtrip_and_bound (text : PyStr) (maxLength : Nat)
    (_hmax : 1 ≤ maxLength) (hbar : barChar ∉ text) :
    pyWords (List.intercalate [spaceChar] (chunk_text text maxLength)) = pyWords text ∧
      ∀ c ∈ chunk_text text maxLength, c.length ≤ maxLength ∨ c ∈ pyWords text := by
  have hwords := chunk_text_words text maxLength hbar
  constructor
  · rw [pyWords_intercalate, hwords]
  · intro c hc
    by_cases hlen : c.length ≤ maxLength
    · exact Or.inl hlen
    · rcases chunkOk_chunk_text text maxLength c hc with h | h
      · exact Or.inl h
      · refine Or.inr ?_
        have hcne : c ≠ [] := by
          intro hc0
          subst hc0
          simp at hlen
        have hsingle : pyWords c = [c] := pyWords_singleton c hcne h
        have hmem : c ∈ ((chunk_text text maxLength).map pyWords).flatten := by
          rw [List.mem_flatten]
          exact ⟨[c], List.mem_map.mpr ⟨c, hc, hsingle⟩, List.mem_singleton.mpr rfl⟩
        rwa [hwords] at hmem

/-- Witness for the amended Claim C6 at a concrete input. -/
theorem c6_chunk_text_roundtrip_and_bound_witness :
    (1 ≤ 8 ∧ barChar ∉ ("hello world. bye now").data) ∧
      pyWords (List.intercalate [spaceChar] (chunk_text ("hello world. bye now").data 8)) =
        pyWords ("hello world. bye now").data :=
  ⟨⟨by decide, by decide⟩,
    (c6_chunk_text_roundtrip_and_bound ("hello world. bye now").data 8 (by decide)
      (by decide)).1⟩

/-! ## Claim C7 -/

theorem dropWhile_eq_self_of_false {α : Type} (p : α → Bool) (l : List α)
    (h : ∀ c ∈ l, p c = false) : l.dropWhile p = l := by
  cases l with
  | nil => rfl
  | cons c rest =>
    rw [List.dropWhile_cons, if_neg]
    simp [h c (List.mem_cons_self c rest)]

theorem digit_not_ws (c : Char) (h : c.isDigit = true) : c.isWhitespace = false := by
  simp only [Char.isWhitespace, Bool.or_eq_false_iff, decide_eq_false_iff_not]
  refine ⟨⟨⟨?_, ?_⟩, ?_⟩, ?_⟩ <;>
    first
    | (intro he; subst he; exact absurd h (by decide))

theorem parseUDigitsAux_digits (ds : PyStr) (h : ∀ c ∈ ds, c.isDigit = true) :
    ∀ acc, parseUDigitsAux acc ds =
      some (ds.foldl (fun a c => a * 10 + digitVal c) acc) := by
  induction ds with
  | nil => intro acc; rfl
  | cons c rest ih =>
    intro acc
    have hc : c.isDigit = true := h c (List.mem_cons_self c rest)
    have hunder : ¬(c = Char.ofNat 95) := by
      intro he
      subst he
      exact absurd hc (by decide)
    rw [parseUDigitsAux.eq_def]
    dsimp only
    rw [if_neg hunder, if_pos hc, List.foldl_cons]
    exact ih (fun c' h' => h c' (List.mem_cons_of_mem c h')) _

theorem parseUDigits_digits (ds : PyStr) (hne : ds ≠ [])
    (h : ∀ c ∈ ds, c.isDigit = true) : parseUDigits ds = some (parseDec ds) := by
  cases ds with
  | nil => exact absurd rfl hne
  | cons c rest =>
    rw [parseUDigits, if_pos (h c (List.mem_cons_self c rest)),
      parseUDigitsAux_digits rest (fun c' h' => h c' (List.mem_cons_of_mem c h'))]
    have hz : (0 : Nat) * 10 + digitVal c = digitVal c := by omega
    rw [parseDec, List.foldl_cons, hz]

theorem pyInt?_digits (ds : PyStr) (hne : ds ≠ [])
    (h : ∀ c ∈ ds, c.isDigit = true) : pyInt? ds = some (Int.ofNat (parseDec ds)) := by
  have hws : ∀ c ∈ ds, c.isWhitespace = false := fun c hc => digit_not_ws c (h c hc)
  have hstrip :
      ((ds.dropWhile Char.isWhitespace).reverse.dropWhile Char.isWhitespace).reverse = ds := by
    rw [dropWhile_eq_self_of_false _ _ hws,
      dropWhile_eq_self_of_false _ _ (fun c hc => hws c (List.mem_reverse.mp hc)),
      List.reverse_reverse]
  cases hds : ds with
  | nil => exact absurd hds hne
  | cons c rest =>
    have hc : c.isDigit = true := h c (hds ▸ List.mem_cons_self c rest)
    have hplus : ¬(c = Char.ofNat 43) := by
      intro he
      subst he
      exact absurd hc (by decide)
    have hminus : ¬(c = Char.ofNat 45) := by
      intro he
      subst he
      exact absurd hc (by decide)
    subst hds
    simp only [pyInt?]
    rw [hstrip]
    dsimp only
    rw [if_neg hplus, if_neg hminus, parseUDigits_digits (c :: rest) (by simp) h]
    rfl

/-- Claim C7, counterexample: the claim's "if and only if" is false. The
string `"++10%"` does not match the pattern sign-digits-percent, yet the
validator accepts it, because CPython `int` accepts a second inner sign. -/
theorem c7_counterexample_double_sign :
    validate_percentage ("++10%").data = true ∧
      specPercentagePattern ("++10%").data = false := by
  decide

/-- Claim C7, amended: the validator accepts every string matching
`^[+-]\d+%$` with magnitude in `[0,100]` (in particular the boundary values
`+0%`, `+100%`, `-100%`), but not only those: a string is accepted exactly
when it starts with `+` or `-`, ends with `%`, and its interior `v[1:-1]`
parses under CPython `int` — which also tolerates surrounding whitespace, one
extra inner sign, and underscore digit separators — to a value in `[0,100]`. -/
theorem c7_validate_percentage_amended :
    (∀ v : PyStr, specPercentagePattern v = true → validate_percentage v = true) ∧
      (∀ v : PyStr, validate_percentage v = true →
        (pyStartsWith (Char.ofNat 43) v = true ∨ pyStartsWith (Char.ofNat 45) v = true) ∧
          pyEndsWith (Char.ofNat 37) v = true ∧
          ∃ n : Int, pyInt? (pySlice1m1 v) = some n ∧ 0 ≤ n ∧ n ≤ 100) := by
  constructor
  · intro v hspec
    cases v with
    | nil => exact absurd hspec (by decide)
    | cons c rest =>
      simp only [specPercentagePattern, decide_eq_true_eq] at hspec
      obtain ⟨hsign, hlast, hne, hdig, hle⟩ := hspec
      have hds : ∀ x ∈ rest.dropLast, x.isDigit = true := by
        intro x hx
        exact List.all_eq_true.mp hdig x hx
      unfold validate_percentage
      rw [if_neg]
      · rw [pySlice1m1]
        have hdrop : (c :: rest).drop 1 = rest := rfl
        rw [hdrop, pyInt?_digits rest.dropLast hne hds]
        simp only [decide_eq_true_eq, Int.ofNat_eq_natCast]
        omega
      · rw [not_or, not_not, not_not]
        constructor
        · rcases hsign with h43 | h45
          · subst h43
            left
            simp [pyStartsWith]
          · subst h45
            right
            simp [pyStartsWith]
        · simp only [pyEndsWith, decide_eq_true_eq]
          cases rest with
          | nil => exact absurd hlast (by simp)
          | cons r rest' =>
            rw [List.getLast?_cons_cons]
            exact hlast
  · intro v hacc
    unfold validate_percentage at hacc
    split at hacc
    · exact absurd hacc (by simp)
    · rename_i hcond
      rw [not_or, not_not, not_not] at hcond
      obtain ⟨hsign, hend⟩ := hcond
      refine ⟨hsign, hend, ?_⟩
      split at hacc
      · rename_i num heq
        simp only [decide_eq_true_eq, not_or, not_lt] at hacc
        exact ⟨num, heq, hacc.1, by omega⟩
      · exact absurd hacc (by simp)

/-- Witness for the amended Claim C7 at the boundary value `+100%`. -/
theorem c7_validate_percentage_amended_witness :
    specPercentagePattern ("+100%").data = true ∧
      validate_percentage ("+100%").data = true :=
  ⟨by decide, c7_validate_percentage_amended.1 ("+100%").data (by decide)⟩

/-! ## Claim C2 -/

theorem digitVal_digitChar (m : Nat) (h : m < 10) :
    digitVal (Nat.digitChar m) = m := by
  interval_cases m <;> decide

theorem parseDec_append_digit (l : PyStr) (d : Char) :
    parseDec (l ++ [d]) = parseDec l * 10 + digitVal d := by
  unfold parseDec
  rw [List.foldl_append, List.foldl_cons, List.foldl_nil]

theorem parseDec_pyNatStrAux (fuel n : Nat) (hfuel : n ≤ fuel) :
    parseDec (pyNatStrAux fuel n) = n := by
  induction fuel generalizing n with
  | zero =>
    have : n = 0 := Nat.le_zero.mp hfuel
    subst this
    rfl
  | succ fuel ih =>
    cases n with
    | zero => rfl
    | succ m =>
      rw [pyNatStrAux, parseDec_append_digit,
        ih ((m + 1) / 10) (by omega),
        digitVal_digitChar ((m + 1) % 10) (Nat.mod_lt _ (by omega))]
      omega

theorem parseDec_pyNatStr (n : Nat) : parseDec (pyNatStr n) = n := by
  unfold pyNatStr
  split
  · subst ‹n = 0›
    decide
  · exact parseDec_pyNatStrAux (n + 1) n (by omega)

theorem pyNatStr_injective : Function.Injective pyNatStr := by
  intro a b hab
  have := parseDec_pyNatStr a
  rw [hab, parseDec_pyNatStr b] at this
  omega

theorem requestId_injective (t₁ t₂ : Nat) (h : t₁ ≠ t₂) : requestId t₁ ≠ requestId t₂ := by
  intro he
  apply h
  unfold requestId at he
  have hdata : ("req_").data ++ pyNatStr t₁ = ("req_").data ++ pyNatStr t₂ :=
    congrArg String.data he
  exact pyNatStr_injective (List.append_cancel_left hdata)

/-- Claim C2, counterexample: the claim is false because the request id is
`f"req_{int(time.time())}"` with no disambiguator. Two distinct valid
submissions within the same wall-clock second (here second 100) are both
issued the id `"req_100"`; the second overwrites the first record. -/
theorem c2_counterexample_same_second_same_id :
    (play_podcast 100 [[("speaker", "male"), ("text", "Hello!")]] "+0%" "+0%").rid =
        some "req_100" ∧
      (play_podcast 100 [[("speaker", "female"), ("text", "Hi there!")]] "+0%" "+0%").rid =
        some "req_100" ∧
      [[("speaker", "male"), ("text", "Hello!")]] ≠
        [[("speaker", "female"), ("text", "Hi there!")]] := by
  decide

/-- Claim C2, amended: every successful submission at second `t` is issued
exactly the id `req_<t>`, so ids issued at distinct integer seconds always
differ, while two submissions within one second collide (no disambiguator
exists). -/
theorem c2_request_id_unique_across_seconds :
    (∀ (t : Nat) (conv : List (List (String × String))) (rate volume : String)
      (i m : String) (n : Nat) (rec : JobRecord) (segs : List ConversationSegment),
        play_podcast t conv rate volume = .submitted i m n rec segs → i = requestId t) ∧
      ∀ t₁ t₂ : Nat, t₁ ≠ t₂ → requestId t₁ ≠ requestId t₂ := by
  constructor
  · intro t conv rate volume i m n rec segs h
    unfold play_podcast at h
    split at h
    · exact absurd h (by simp)
    · split at h
      · exact absurd h (by simp)
      · cases h
        rfl
  · exact requestId_injective

/-- Witness for the amended Claim C2 at two concrete distinct seconds. -/
theorem c2_request_id_unique_across_seconds_witness :
    (100 : Nat) ≠ 101 ∧ requestId 100 ≠ requestId 101 :=
  ⟨by decide, c2_request_id_unique_across_seconds.2 100 101 (by decide)⟩

/-! ## The segment loop of the job processor -/

theorem filterMap_some_fun {α β : Type} (f : α → β) (l : List α) :
    l.filterMap (fun a => some (f a)) = l.map f := by
  induction l with
  | nil => rfl
  | cons a l ih => simp [List.filterMap_cons, ih]

theorem filterMap_ite_eq_filter_map {α β : Type} (q : α → Prop) [DecidablePred q]
    (f : α → β) (l : List α) :
    l.filterMap (fun a => if q a then some (f a) else none) =
      (l.filter (fun a => decide (q a))).map f := by
  induction l with
  | nil => rfl
  | cons a l ih =>
    by_cases hq : q a
    · simp [List.filterMap_cons, List.filter_cons, hq, ih]
    · simp [List.filterMap_cons, List.filter_cons, hq, ih]

theorem foldl_procStep_spec (synth : Nat → ConversationSegment → Except String Audio)
    (out : Nat → Except String Audio) (l : List (Nat × ConversationSegment))
    (h : ∀ p ∈ l, synth p.1 p.2 = out p.1) (st : ProcState) :
    (l.foldl (procStep synth) st).temp_files =
        st.temp_files ++ l.filterMap (fun p => (out p.1).toOption) ∧
      (l.foldl (procStep synth) st).errors =
        st.errors ++ l.filterMap (fun p =>
          match out p.1 with
          | .ok _ => none
          | .error e => some (p.1, e)) := by
  induction l generalizing st with
  | nil => simp
  | cons p l ih =>
    rw [List.foldl_cons]
    have hp := h p (List.mem_cons_self p l)
    have htail := fun q hq => h q (List.mem_cons_of_mem p hq)
    cases hout : out p.1 with
    | ok a =>
      have hstep : procStep synth st p =
          { st with
              progress := p.1,
              temp_files := st.temp_files ++ [a],
              segment_details := st.segment_details ++
                [⟨p.1, p.2.speaker, (PODCAST_VOICES.lookup p.2.speaker).getD "", p.2.text,
                  p.2.text.length, (pyWords p.2.text.data).length⟩] } := by
        unfold procStep
        rw [hp, hout]
      rw [hstep]
      obtain ⟨h1, h2⟩ := ih htail _
      constructor
      · rw [h1]
        simp [hout, List.filterMap_cons, Except.toOption, List.append_assoc]
      · rw [h2]
        simp [hout, List.filterMap_cons]
    | error e =>
      have hstep : procStep synth st p =
          { st with
              progress := p.1,
              errors := st.errors ++ [(p.1, e)] } := by
        unfold procStep
        rw [hp, hout]
      rw [hstep]
      obtain ⟨h1, h2⟩ := ih htail _
      constructor
      · rw [h1]
        simp [hout, List.filterMap_cons, Except.toOption]
      · rw [h2]
        simp [hout, List.filterMap_cons, List.append_assoc]

theorem range_filter_eq_single (n k : Nat) (h : k < n) :
    (List.range n).filter (fun i => decide (i = k)) = [k] := by
  induction n with
  | zero => omega
  | succ n ih =>
    rw [List.range_succ, List.filter_append]
    by_cases hk : k < n
    · rw [ih hk]
      have : (n = k) = False := by simp; omega
      simp [this]
    · have hkn : k = n := by omega
      subst hkn
      rw [List.filter_eq_nil_iff.mpr]
      · simp
      · intro x hx
        simp only [List.mem_range] at hx
        simp
        omega

/-! ## Claim C3 -/

/-- Claim C3, confirmed: when every segment synthesizes successfully, the
terminal record has status `completed`, stored progress `N`, and the final
artifact written is the byte-concatenation of the per-segment artifacts in
original segment order. -/
theorem c3_all_success_completed_concat
    (segments : List ConversationSegment) (synth : Nat → ConversationSegment → Except String Audio)
    (aud : Nat → Audio) (request_id procTime : String) (rd : JobRecord)
    (hne : segments ≠ [])
    (h : ∀ p ∈ segments.enum, synth p.1 p.2 = Except.ok (aud p.1)) :
    (process_podcast_request synth request_id segments procTime rd).1.status = "completed" ∧
      (process_podcast_request synth request_id segments procTime rd).1.progress =
        segments.length ∧
      (process_podcast_request synth request_id segments procTime rd).2 =
        some (((List.range segments.length).map aud).flatten) := by
  obtain ⟨htf, herr⟩ := foldl_procStep_spec synth (fun i => Except.ok (aud i))
    segments.enum h ⟨[], [], [], 0⟩
  have htf' : (segments.enum.foldl (procStep synth) ⟨[], [], [], 0⟩).temp_files =
      (List.range segments.length).map aud := by
    rw [htf, List.nil_append]
    have hfn : (fun p : Nat × ConversationSegment =>
        ((Except.ok (aud p.1) : Except String Audio)).toOption) =
        (fun p : Nat × ConversationSegment => some (aud p.1)) := rfl
    rw [hfn, filterMap_some_fun]
    have : (fun p : Nat × ConversationSegment => aud p.1) = (aud ∘ Prod.fst) := rfl
    rw [this, ← List.map_map, List.enum_eq_enumFrom, List.enumFrom_map_fst,
      ← List.range_eq_range']
  have hpos : 0 < ((List.range segments.length).map aud).length := by
    simp only [List.length_map, List.length_range]
    exact List.length_pos.mpr hne
  simp only [process_podcast_request, htf']
  rw [if_pos hpos]
  exact ⟨rfl, rfl, rfl⟩

/-- Witness for Claim C3 on the spec's two-segment example. -/
theorem c3_all_success_completed_concat_witness :
    (([⟨"male", "Hello!"⟩, ⟨"female", "Hi there!"⟩] : List ConversationSegment) ≠ [] ∧
      ∀ p ∈ ([⟨"male", "Hello!"⟩, ⟨"female", "Hi there!"⟩] : List ConversationSegment).enum,
        (fun (i : Nat) (_ : ConversationSegment) => (Except.ok [i] : Except String Audio)) p.1 p.2 =
          Except.ok ([p.1] : Audio)) ∧
      (process_podcast_request (fun i _ => Except.ok [i]) "req_1"
        [⟨"male", "Hello!"⟩, ⟨"female", "Hi there!"⟩] "0.10s"
        ⟨"submitted", 0, 0, 2, [], [], none⟩).1.status = "completed" :=
  ⟨⟨by decide, by decide⟩,
    (c3_all_success_completed_concat [⟨"male", "Hello!"⟩, ⟨"female", "Hi there!"⟩]
      (fun i _ => Except.ok [i]) (fun i => [i]) "req_1" "0.10s"
      ⟨"submitted", 0, 0, 2, [], [], none⟩ (by decide) (by decide)).1⟩

/-! ## Claim C4 -/

/-- Claim C4, confirmed: when exactly one segment (index `k`) fails out of
`N > 1`, the job still completes, the record's errors list is exactly
`[(k, message)]` (starting from the empty list the submission created), and
the final artifact concatenates the `N - 1` successful artifacts in their
original relative order. -/
theorem c4_single_failure_completed_errors
    (segments : List ConversationSegment) (synth : Nat → ConversationSegment → Except String Audio)
    (aud : Nat → Audio) (k : Nat) (e : String) (request_id procTime : String) (rd : JobRecord)
    (hn : 1 < segments.length) (hk : k < segments.length) (herr0 : rd.errors = [])
    (h : ∀ p ∈ segments.enum, synth p.1 p.2 =
      if p.1 = k then Except.error e else Except.ok (aud p.1)) :
    (process_podcast_request synth request_id segments procTime rd).1.status = "completed" ∧
      (process_podcast_request synth request_id segments procTime rd).1.errors = [(k, e)] ∧
      (process_podcast_request synth request_id segments procTime rd).2 =
        some ((((List.range segments.length).filter (fun i => i ≠ k)).map aud).flatten) := by
  obtain ⟨htf, herr⟩ := foldl_procStep_spec synth
    (fun i => if i = k then Except.error e else Except.ok (aud i)) segments.enum h ⟨[], [], [], 0⟩
  have hmapfst : segments.enum.map Prod.fst = List.range segments.length := by
    rw [List.enum_eq_enumFrom, List.enumFrom_map_fst, ← List.range_eq_range']
  have htf' : (segments.enum.foldl (procStep synth) ⟨[], [], [], 0⟩).temp_files =
      ((List.range segments.length).filter (fun i => i ≠ k)).map aud := by
    rw [htf, List.nil_append]
    have hfn : (fun p : Nat × ConversationSegment =>
        ((if p.1 = k then Except.error e else Except.ok (aud p.1) : Except String Audio)).toOption) =
        (fun p : Nat × ConversationSegment => if p.1 ≠ k then some (aud p.1) else none) := by
      funext p
      by_cases hp : p.1 = k
      · simp [hp, Except.toOption]
      · simp [hp, Except.toOption]
    rw [hfn]
    have hcomp : (fun p : Nat × ConversationSegment => if p.1 ≠ k then some (aud p.1) else none) =
        ((fun i => if i ≠ k then some (aud i) else none) ∘ Prod.fst) := rfl
    rw [hcomp, ← List.filterMap_map, hmapfst,
      filterMap_ite_eq_filter_map (fun i => i ≠ k) aud (List.range segments.length)]
  have herr' : (segments.enum.foldl (procStep synth) ⟨[], [], [], 0⟩).errors = [(k, e)] := by
    rw [herr, List.nil_append]
    have hfn : (fun p : Nat × ConversationSegment =>
        (match (if p.1 = k then Except.error e else Except.ok (aud p.1) : Except String Audio) with
          | .ok _ => none
          | .error e' => some (p.1, e'))) =
        (fun p : Nat × ConversationSegment => if p.1 = k then some (p.1, e) else none) := by
      funext p
      by_cases hp : p.1 = k
      · simp [hp]
      · simp [hp]
    rw [hfn]
    have hcomp : (fun p : Nat × ConversationSegment => if p.1 = k then some (p.1, e) else none) =
        ((fun i => if i = k then some (i, e) else none) ∘ Prod.fst) := rfl
    rw [hcomp, ← List.filterMap_map, hmapfst,
      filterMap_ite_eq_filter_map (fun i => i = k) (fun i => (i, e)) (List.range segments.length),
      range_filter_eq_single segments.length k hk, List.map_cons, List.map_nil]
  have hpos : 0 < (((List.range segments.length).filter (fun i => i ≠ k)).map aud).length := by
    have hj : ∃ j, j ∈ (List.range segments.length).filter (fun i => i ≠ k) := by
      refine ⟨if k = 0 then 1 else 0, List.mem_filter.mpr ⟨List.mem_range.mpr ?_, ?_⟩⟩
      · split <;> omega
      · split
        · simp
          omega
        · simp
          omega
    obtain ⟨j, hj⟩ := hj
    simp only [List.length_map]
    exact List.length_pos.mpr (List.ne_nil_of_mem hj)
  simp only [process_podcast_request, htf', herr', herr0]
  rw [if_pos hpos]
  exact ⟨rfl, rfl, rfl⟩

/-- Witness for Claim C4: three segments, the middle one failing. -/
theorem c4_single_failure_completed_errors_witness :
    (1 < ([⟨"male", "a"⟩, ⟨"female", "b"⟩, ⟨"male", "c"⟩] : List ConversationSegment).length ∧
      (1 : Nat) < 3 ∧
      (∀ p ∈ ([⟨"male", "a"⟩, ⟨"female", "b"⟩, ⟨"male", "c"⟩] : List ConversationSegment).enum,
        (fun (i : Nat) (_ : ConversationSegment) =>
          if i = 1 then (Except.error "boom" : Except String Audio) else Except.ok [i]) p.1 p.2 =
          if p.1 = 1 then Except.error "boom" else Except.ok ([p.1] : Audio))) ∧
      (process_podcast_request
        (fun i _ => if i = 1 then Except.error "boom" else Except.ok [i]) "req_2"
        [⟨"male", "a"⟩, ⟨"female", "b"⟩, ⟨"male", "c"⟩] "0.10s"
        ⟨"submitted", 0, 0, 3, [], [], none⟩).1.errors = [(1, "boom")] :=
  ⟨⟨by decide, by decide, by decide⟩,
    (c4_single_failure_completed_errors [⟨"male", "a"⟩, ⟨"female", "b"⟩, ⟨"male", "c"⟩]
      (fun i _ => if i = 1 then Except.error "boom" else Except.ok [i]) (fun i => [i]) 1 "boom"
      "req_2" "0.10s" ⟨"submitted", 0, 0, 3, [], [], none⟩ (by decide) (by decide) (by decide)
      (by decide)).2.1⟩

/-! ## Claim C5 -/

/-- Claim C5, confirmed: when every segment's synthesis fails, the job record
reaches status `failed` and no final concatenated artifact is produced (the
combined output file is never written). -/
theorem c5_all_fail_failed_no_artifact
    (segments : List ConversationSegment) (synth : Nat → ConversationSegment → Except String Audio)
    (emsg : Nat → String) (request_id procTime : String) (rd : JobRecord)
    (h : ∀ p ∈ segments.enum, synth p.1 p.2 = Except.error (emsg p.1)) :
    (process_podcast_request synth request_id segments procTime rd).1.status = "failed" ∧
      (process_podcast_request synth request_id segments procTime rd).2 = none := by
  obtain ⟨htf, herr⟩ := foldl_procStep_spec synth (fun i => Except.error (emsg i))
    segments.enum h ⟨[], [], [], 0⟩
  have htf' : (segments.enum.foldl (procStep synth) ⟨[], [], [], 0⟩).temp_files = [] := by
    rw [htf, List.nil_append]
    have hfn : (fun p : Nat × ConversationSegment =>
        ((Except.error (emsg p.1) : Except String Audio)).toOption) =
        (fun _ : Nat × ConversationSegment => (none : Option Audio)) := rfl
    rw [hfn]
    induction segments.enum with
    | nil => rfl
    | cons q l ih => simp [List.filterMap_cons, ih]
  simp only [process_podcast_request, htf']
  rw [if_neg (by simp)]
  exact ⟨rfl, rfl⟩

/-- Witness for Claim C5: two segments, both failing. -/
theorem c5_all_fail_failed_no_artifact_witness :
    (∀ p ∈ ([⟨"male", "a"⟩, ⟨"female", "b"⟩] : List ConversationSegment).enum,
      (fun (_ : Nat) (_ : ConversationSegment) =>
        (Except.error "down" : Except String Audio)) p.1 p.2 = Except.error "down") ∧
      (process_podcast_request (fun _ _ => Except.error "down") "req_3"
        [⟨"male", "a"⟩, ⟨"female", "b"⟩] "0.10s"
        ⟨"submitted", 0, 0, 2, [], [], none⟩).2 = none :=
  ⟨by decide,
    (c5_all_fail_failed_no_artifact [⟨"male", "a"⟩, ⟨"female", "b"⟩]
      (fun _ _ => Except.error "down") (fun _ => "down") "req_3" "0.10s"
      ⟨"submitted", 0, 0, 2, [], [], none⟩ (by decide)).2⟩

/-! ## Claim C1 -/

/-- Claim C1, bug in the code: `check_podcast_status` builds the response with
`status = "completed"`/`"failed"` but then merges the stored result dict into
it with `response.update(request_data["result"])` (src/podcast_tts_mcp_server.py
lines 609-618), and the result dict carries its own `status` key, `"success"`
or `"error"`. So for every terminal job the returned `status` field is
`"success"`/`"error"`, never the documented `"completed"`/`"failed"`. Here the
spec's own worked example (two successful segments) yields a stored status
`completed` but a response status `"success"`; an all-failing job yields a
stored status `failed` but a response status `"error"`. -/
theorem c1_check_status_reports_success_after_merge :
    (demoStore.lookup "req_100").map JobRecord.status = some "completed" ∧
      (check_podcast_status demoFmt demoStore "req_100").lookup "status" =
        some (PyVal.s "success") ∧
      (check_podcast_status demoFmt demoStore "req_100").lookup "status" ≠
        some (PyVal.s "completed") ∧
      (check_podcast_status demoFmt
          [("req_100", (process_podcast_request (fun _ _ => Except.error "down") "req_100"
            [⟨"male", "Hello!"⟩] "0.10s" ⟨"submitted", 100, 0, 1, [], [], none⟩).1)]
          "req_100").lookup "status" = some (PyVal.s "error") := by
  decide

/-! ## Claim C9 -/

theorem mem_eq_of_nodup_keys {β : Type} (l : List (String × β))
    (hnd : (l.map Prod.fst).Nodup) (p q : String × β) (hp : p ∈ l) (hq : q ∈ l)
    (hk : p.1 = q.1) : p = q := by
  induction l with
  | nil => simp at hp
  | cons r l ih =>
    rw [List.map_cons, List.nodup_cons] at hnd
    rcases List.mem_cons.mp hp with hp1 | hp1 <;> rcases List.mem_cons.mp hq with hq1 | hq1
    · rw [hp1, hq1]
    · subst hp1
      exact absurd (hk ▸ List.mem_map.mpr ⟨q, hq1, rfl⟩) hnd.1
    · subst hq1
      exact absurd (hk ▸ List.mem_map.mpr ⟨p, hp1, rfl⟩) hnd.1
    · exact ih hnd.2 hp1 hq1

theorem lookup_eq_some_of_mem_nodup {β : Type} (l : List (String × β)) (k : String) (v : β)
    (hmem : (k, v) ∈ l) (hnd : (l.map Prod.fst).Nodup) : l.lookup k = some v := by
  induction l with
  | nil => simp at hmem
  | cons r l ih =>
    rw [List.map_cons, List.nodup_cons] at hnd
    rcases List.mem_cons.mp hmem with h1 | h1
    · rw [← h1, List.lookup_cons_self]
    · have hne : ¬(k == r.1) := by
        intro hbeq
        rw [beq_iff_eq] at hbeq
        exact hnd.1 (hbeq ▸ List.mem_map.mpr ⟨(k, v), h1, rfl⟩)
      obtain ⟨rk, rv⟩ := r
      rw [List.lookup_cons]
      simp only at hne
      rw [show (k == rk) = false from by simpa using hne]
      exact ih h1 hnd.2

/-- Claim C9, confirmed: one Reaper cycle at time `now` deletes exactly the
records with `now - submitted_at > 3600`; afterwards `check_podcast_status`
answers `not_found` for a deleted id, and any record still inside the
retention window survives the cycle unchanged. -/
theorem c9_reaper_eviction (fmt : Nat → String) (store : JobStore) (rid : String)
    (rd : JobRecord) (now : Nat) (hnd : (store.map Prod.fst).Nodup)
    (hmem : (rid, rd) ∈ store) :
    (now - rd.submitted_at > REQUEST_EXPIRY_SECONDS →
        (cleanup_old_requests_cycle now store).lookup rid = none ∧
        (check_podcast_status fmt (cleanup_old_requests_cycle now store) rid).lookup "status" =
          some (PyVal.s "not_found")) ∧
      (now - rd.submitted_at ≤ REQUEST_EXPIRY_SECONDS →
        (cleanup_old_requests_cycle now store).lookup rid = some rd) := by
  constructor
  · intro hexp
    have hnone : (cleanup_old_requests_cycle now store).lookup rid = none := by
      rw [List.lookup_eq_none_iff]
      intro p hp
      rcases List.mem_filter.mp hp with ⟨hpstore, hkeep⟩
      simp only [bne_iff_ne, ne_eq]
      intro hkeq
      have hpeq : p = (rid, rd) :=
        mem_eq_of_nodup_keys store hnd p (rid, rd) hpstore hmem (by rw [← hkeq])
      rw [hpeq] at hkeep
      simp only [decide_eq_true_eq] at hkeep
      exact hkeep hexp
    refine ⟨hnone, ?_⟩
    rw [check_podcast_status, hnone]
    rfl
  · intro hfresh
    have hmemf : (rid, rd) ∈ cleanup_old_requests_cycle now store := by
      refine List.mem_filter.mpr ⟨hmem, ?_⟩
      simp only [decide_eq_true_eq]
      omega
    refine lookup_eq_some_of_mem_nodup _ rid rd hmemf ?_
    exact List.Nodup.sublist (List.Sublist.map Prod.fst (List.filter_sublist store)) hnd

/-- Witness for Claim C9: an expired record is evicted and reported
`not_found`; a fresh one survives. -/
theorem c9_reaper_eviction_witness :
    (5000 : Nat) - 100 > REQUEST_EXPIRY_SECONDS ∧
      (cleanup_old_requests_cycle 5000
        [("req_9", ⟨"completed", 100, 2, 2, [], [], none⟩)]).lookup "req_9" = none :=
  ⟨by decide,
    ((c9_reaper_eviction demoFmt [("req_9", ⟨"completed", 100, 2, 2, [], [], none⟩)] "req_9"
      ⟨"completed", 100, 2, 2, [], [], none⟩ 5000 (by decide) (by decide)).1 (by decide)).1⟩

/-! ## Claim C10 -/

theorem hasKeyCI_of_lookup_findKeyCI (seg : List (String × String)) (target : String)
    (v : String) (h : seg.lookup (findKeyCI seg target) = some v)
    (htarget : pyLower target = target) : hasKeyCI seg target = true := by
  unfold findKeyCI at h
  cases hfind : (seg.map Prod.fst).find? (fun k => pyLower k = target) with
  | some k =>
    unfold hasKeyCI
    rw [List.any_eq_true]
    refine ⟨k, List.mem_of_find?_eq_some hfind, ?_⟩
    have hpk := List.find?_some hfind
    exact hpk
  | none =>
    rw [hfind, Option.getD_none] at h
    have hsome : (seg.lookup target).isSome := by rw [h]; rfl
    rw [List.lookup_isSome_iff] at hsome
    obtain ⟨p, hp, hbeq⟩ := hsome
    rw [beq_iff_eq] at hbeq
    have := List.find?_eq_none.mp hfind p.1 (List.mem_map.mpr ⟨p, hp, rfl⟩)
    rw [← hbeq, htarget] at this
    simp at this

theorem lookup_findKeyCI_isSome_of_hasKeyCI (seg : List (String × String)) (target : String)
    (h : hasKeyCI seg target = true) : (seg.lookup (findKeyCI seg target)).isSome := by
  unfold hasKeyCI at h
  rw [List.any_eq_true] at h
  obtain ⟨k, hkmem, _⟩ := h
  cases hfind : (seg.map Prod.fst).find? (fun k => pyLower k = target) with
  | none =>
    exact absurd (List.find?_eq_none.mp hfind k hkmem ‹_›) (by simp)
  | some k' =>
    unfold findKeyCI
    rw [hfind, Option.getD_some]
    rw [List.lookup_isSome_iff]
    obtain ⟨p, hp, hpeq⟩ := List.mem_map.mp (List.mem_of_find?_eq_some hfind)
    exact ⟨p, hp, by simp [hpeq]⟩

theorem convertSegments_ok_length (conv : List (List (String × String)))
    (segs : List ConversationSegment) (h : convertSegments conv = .ok segs) :
    segs.length = (conv.filter keepEntry).length := by
  induction conv generalizing segs with
  | nil =>
    rw [convertSegments] at h
    cases h
    rfl
  | cons seg rest ih =>
    rw [convertSegments] at h
    cases hs : seg.lookup (findKeyCI seg "speaker") with
    | none =>
      rw [hs] at h
      have hkey : keepEntry seg = false := by
        unfold keepEntry
        have : hasKeyCI seg "speaker" = false := by
          by_contra hk
          have := lookup_findKeyCI_isSome_of_hasKeyCI seg "speaker"
            (by simpa using hk)
          rw [hs] at this
          simp at this
        simp [this]
      cases ht : seg.lookup (findKeyCI seg "text") with
      | none =>
        rw [ht] at h
        rw [List.filter_cons_of_neg (by simp [hkey])]
        exact ih segs h
      | some tv =>
        rw [ht] at h
        rw [List.filter_cons_of_neg (by simp [hkey])]
        exact ih segs h
    | some sv =>
      rw [hs] at h
      cases ht : seg.lookup (findKeyCI seg "text") with
      | none =>
        rw [ht] at h
        have hkey : keepEntry seg = false := by
          unfold keepEntry
          have : hasKeyCI seg "text" = false := by
            by_contra hk
            have := lookup_findKeyCI_isSome_of_hasKeyCI seg "text"
              (by simpa using hk)
            rw [ht] at this
            simp at this
          simp [this]
        rw [List.filter_cons_of_neg (by simp [hkey])]
        exact ih segs h
      | some tv =>
        rw [ht] at h
        have hkey : keepEntry seg = true := by
          unfold keepEntry
          simp [hasKeyCI_of_lookup_findKeyCI seg "speaker" sv hs (by decide),
            hasKeyCI_of_lookup_findKeyCI seg "text" tv ht (by decide)]
        rw [List.filter_cons_of_pos (by simp [hkey])]
        dsimp only at h
        cases hmk : mkConversationSegment sv tv with
        | error e => rw [hmk] at h; exact absurd h (by simp [Bind.bind, Except.bind])
        | ok c =>
          rw [hmk] at h
          cases hrest : convertSegments rest with
          | error e =>
            rw [hrest] at h
            exact absurd h (by simp [Bind.bind, Except.bind])
          | ok cs =>
            rw [hrest] at h
            have hsegs : segs = c :: cs := by
              simpa [Bind.bind, Except.bind, pure, Except.pure] using h.symm
            rw [hsegs, List.length_cons, ih cs hrest, List.length_cons]

theorem convertSegments_all_skipped (conv : List (List (String × String)))
    (h : conv.filter keepEntry = []) : convertSegments conv = .ok [] := by
  induction conv with
  | nil => rfl
  | cons seg rest ih =>
    have hkey : keepEntry seg = false := by
      by_contra hk
      rw [List.filter_cons_of_pos (by simpa using hk)] at h
      exact absurd h (by simp)
    have hrest : rest.filter keepEntry = [] := by
      rwa [List.filter_cons_of_neg (by simp [hkey])] at h
    have hlookup : seg.lookup (findKeyCI seg "speaker") = none ∨
        seg.lookup (findKeyCI seg "text") = none := by
      unfold keepEntry at hkey
      by_contra hboth
      rw [not_or] at hboth
      obtain ⟨h1, h2⟩ := hboth
      obtain ⟨v1, hv1⟩ := Option.ne_none_iff_exists'.mp h1
      obtain ⟨v2, hv2⟩ := Option.ne_none_iff_exists'.mp h2
      rw [hasKeyCI_of_lookup_findKeyCI seg "speaker" v1 hv1 (by decide),
        hasKeyCI_of_lookup_findKeyCI seg "text" v2 hv2 (by decide)] at hkey
      simp at hkey
    rw [convertSegments]
    rcases hlookup with hnone | hnone
    · rw [hnone]
      cases seg.lookup (findKeyCI seg "text") <;> exact ih hrest
    · rw [hnone]
      cases seg.lookup (findKeyCI seg "speaker") <;> exact ih hrest

/-- Claim C10, counterexample: the claim is false as a universal statement.
When every submitted entry lacks the keys, the silent omission leaves zero
segments and the submission fails with a validation error instead of
returning a `total_segments` count. -/
theorem c10_counterexample_all_entries_skipped :
    play_podcast 100 [[("foo", "bar")]] "+0%" "+0%" =
      SubmitResult.error "Conversation cannot be empty" := by
  decide

/-- Claim C10, amended: entries lacking a `speaker` or `text` key (compared
case-insensitively) are silently omitted, and every successful submission
reports and stores `total_segments` equal to the number of retained entries,
which may be fewer than the entries submitted; but if every entry is omitted
the submission fails with the validation error `Conversation cannot be
empty` rather than submitting an empty job. -/
theorem c10_missing_key_entries_omitted :
    (∀ (t : Nat) (conv : List (List (String × String))) (rate volume : String)
        (i m : String) (n : Nat) (rec : JobRecord) (segs : List ConversationSegment),
      play_podcast t conv rate volume = .submitted i m n rec segs →
        n = (conv.filter keepEntry).length ∧ rec.total_segments = n ∧
          n ≤ conv.length ∧ segs.length = n) ∧
      ∀ (t : Nat) (conv : List (List (String × String))) (rate volume : String),
        conv.filter keepEntry = [] →
          play_podcast t conv rate volume = .error "Conversation cannot be empty" := by
  constructor
  · intro t conv rate volume i m n rec segs h
    unfold play_podcast at h
    cases hconv : convertSegments conv with
    | error e =>
      rw [hconv] at h
      exact absurd h (by simp)
    | ok validated =>
      rw [hconv] at h
      dsimp only at h
      cases hmk : mkPodcastConversation validated rate volume with
      | error e =>
        rw [hmk] at h
        exact absurd h (by simp)
      | ok triple =>
        rw [hmk] at h
        obtain ⟨segments, r, v⟩ := triple
        have hseg : segments = validated := by
          unfold mkPodcastConversation validate_conversation at hmk
          split at hmk
          · exact absurd hmk (by simp [Bind.bind, Except.bind])
          · split at hmk
            · exact absurd hmk (by simp [Bind.bind, Except.bind])
            · simp only [Bind.bind, Except.bind] at hmk
              split at hmk
              · split at hmk
                · cases hmk
                  rfl
                · exact absurd hmk (by simp)
              · exact absurd hmk (by simp)
        cases h
        refine ⟨?_, rfl, ?_, rfl⟩
        · rw [hseg, convertSegments_ok_length conv validated hconv]
        · rw [hseg, convertSegments_ok_length conv validated hconv]
          exact List.length_filter_le _ _
  · intro t conv rate volume h
    unfold play_podcast
    rw [convertSegments_all_skipped conv h]
    rfl

/-- Witness for the amended Claim C10: one entry with case-variant keys is
retained, one entry without the keys is silently dropped, and the reported
`total_segments` is 1, the number of retained entries. -/
theorem c10_missing_key_entries_omitted_witness :
    play_podcast 5 [[("SPEAKER", "male"), ("Text", "hi")], [("foo", "bar")]] "+0%" "+0%" =
      SubmitResult.submitted "req_5"
        "Podcast TTS request submitted with 1 segments. Use check_podcast_status to monitor progress."
        1 ⟨"submitted", 5, 0, 1, [], [("rate", "+0%"), ("volume", "+0%")], none⟩
        [⟨"male", "hi"⟩] ∧
      (1 : Nat) =
        (([[("SPEAKER", "male"), ("Text", "hi")], [("foo", "bar")]] :
          List (List (String × String))).filter keepEntry).length :=
  ⟨by decide,
    (c10_missing_key_entries_omitted.1 5
      [[("SPEAKER", "male"), ("Text", "hi")], [("foo", "bar")]] "+0%" "+0%" "req_5"
      "Podcast TTS request submitted with 1 segments. Use check_podcast_status to monitor progress."
      1 ⟨"submitted", 5, 0, 1, [], [("rate", "+0%"), ("volume", "+0%")], none⟩
      [⟨"male", "hi"⟩] (by decide)).1⟩

/-! ## Claim C8 -/

theorem segBlock_length (ok : Nat → Bool) (i : Nat) : (segBlock ok i).length = 3 := rfl

theorem flatten_segBlock_length (ok : Nat → Bool) (l : List Nat) :
    ((l.map (segBlock ok)).flatten).length = 3 * l.length := by
  induction l with
  | nil => rfl
  | cons j l ih =>
    simp only [List.map_cons, List.flatten_cons, List.length_append, ih, segBlock_length,
      List.length_cons]
    omega

theorem take_length_add {α : Type} (l₁ l₂ : List α) (k : Nat) :
    (l₁ ++ l₂).take (l₁.length + k) = l₁ ++ l₂.take k := by
  rw [List.take_append_eq_append_take, List.take_of_length_le (by omega),
    Nat.add_sub_cancel_left]

theorem procTrace_split (n : Nat) (ok : Nat → Bool) (i : Nat) (h : i < n) :
    ∃ rest, procTrace n ok =
      ([ProcEvent.setStatus "processing", ProcEvent.setProgress 0] ++
        ((List.range i).map (segBlock ok)).flatten ++ segBlock ok i) ++ rest := by
  obtain ⟨k, rfl⟩ : ∃ k, n = (i + 1) + k := ⟨n - (i + 1), by omega⟩
  refine ⟨(((List.range k).map ((i + 1) + ·)).map (segBlock ok)).flatten ++
    (if (List.range (i + 1 + k)).any ok then
      [ProcEvent.setStatus "completed", ProcEvent.setProgress (i + 1 + k)]
     else [ProcEvent.setStatus "failed"]), ?_⟩
  rw [procTrace, List.range_add, List.range_succ]
  simp only [List.map_append, List.flatten_append, List.map_cons, List.map_nil,
    List.flatten_cons, List.flatten_nil, List.append_nil, List.append_assoc]

theorem startedAt_append (a b : List ProcEvent) :
    startedAt (a ++ b) = startedAt a + startedAt b := by
  simp [startedAt, List.filter_append]

theorem finishedAt_append (a b : List ProcEvent) :
    finishedAt (a ++ b) = finishedAt a + finishedAt b := by
  simp [finishedAt, List.filter_append]

theorem startedAt_segBlock (ok : Nat → Bool) (i : Nat) : startedAt (segBlock ok i) = 1 := rfl

theorem finishedAt_segBlock (ok : Nat → Bool) (i : Nat) : finishedAt (segBlock ok i) = 1 := rfl

theorem startedAt_flatten_segBlock (ok : Nat → Bool) (l : List Nat) :
    startedAt ((l.map (segBlock ok)).flatten) = l.length := by
  induction l with
  | nil => rfl
  | cons j l ih =>
    simp only [List.map_cons, List.flatten_cons, startedAt_append, ih, startedAt_segBlock,
      List.length_cons]
    omega

theorem finishedAt_flatten_segBlock (ok : Nat → Bool) (l : List Nat) :
    finishedAt ((l.map (segBlock ok)).flatten) = l.length := by
  induction l with
  | nil => rfl
  | cons j l ih =>
    simp only [List.map_cons, List.flatten_cons, finishedAt_append, ih, finishedAt_segBlock,
      List.length_cons]
    omega

theorem mem_flatten_segBlock (ok : Nat → Bool) (l : List Nat) (e : ProcEvent)
    (he : e ∈ (l.map (segBlock ok)).flatten) : ∃ j ∈ l, e ∈ segBlock ok j := by
  rw [List.mem_flatten] at he
  obtain ⟨b, hb, hbe⟩ := he
  rw [List.mem_map] at hb
  obtain ⟨j, hj, rfl⟩ := hb
  exact ⟨j, hj, hbe⟩

theorem procTrace_take_midsynth (n : Nat) (ok : Nat → Bool) (i : Nat) (h : i < n) :
    (procTrace n ok).take (3 * i + 4) =
      ([ProcEvent.setStatus "processing", ProcEvent.setProgress 0] ++
        ((List.range i).map (segBlock ok)).flatten) ++
        [ProcEvent.setProgress i, ProcEvent.synthStart i] := by
  obtain ⟨rest, hsplit⟩ := procTrace_split n ok i h
  rw [hsplit]
  have hlen : ([ProcEvent.setStatus "processing", ProcEvent.setProgress 0] ++
      ((List.range i).map (segBlock ok)).flatten).length = 3 * i + 2 := by
    rw [List.length_append, flatten_segBlock_length, List.length_range]
    simp only [List.length_cons, List.length_nil]
    omega
  rw [List.append_assoc, show (3 * i + 4) = (3 * i + 2) + 2 from by omega, ← hlen,
    take_length_add]
  congr 1

theorem progressWrites_append (a b : List ProcEvent) :
    progressWrites (a ++ b) = progressWrites a ++ progressWrites b := by
  simp [progressWrites, List.filterMap_append]

theorem foldl_progress_writes (l : List ProcEvent) : ∀ acc : Nat,
    l.foldl (fun a e => match e with | ProcEvent.setProgress v => v | _ => a) acc =
      (progressWrites l).getLastD acc := by
  induction l with
  | nil => intro acc; rfl
  | cons e l ih =>
    intro acc
    cases e with
    | setProgress v =>
      rw [List.foldl_cons]
      simp only [progressWrites, List.filterMap_cons]
      rw [List.getLastD_cons]
      exact ih v
    | setStatus s => exact ih acc
    | synthStart j => exact ih acc
    | synthEnd j b => exact ih acc

theorem progressAt_eq_writes (l : List ProcEvent) :
    progressAt l = (progressWrites l).getLastD 0 :=
  foldl_progress_writes l 0

theorem progressWrites_segBlock (ok : Nat → Bool) (i : Nat) :
    progressWrites (segBlock ok i) = [i] := rfl

theorem progressWrites_flatten_segBlock (ok : Nat → Bool) (l : List Nat) :
    progressWrites ((l.map (segBlock ok)).flatten) = l := by
  induction l with
  | nil => rfl
  | cons j l ih =>
    rw [List.map_cons, List.flatten_cons, progressWrites_append, progressWrites_segBlock, ih]
    rfl

theorem pairwise_progressWrites_procTrace (n : Nat) (ok : Nat → Bool) :
    List.Pairwise (· ≤ ·) (0 :: progressWrites (procTrace n ok)) := by
  have hpw : progressWrites (procTrace n ok) =
      0 :: (List.range n ++ (if (List.range n).any ok then [n] else [])) := by
    rw [procTrace, progressWrites_append, progressWrites_append,
      progressWrites_flatten_segBlock]
    have h1 : progressWrites [ProcEvent.setStatus "processing", ProcEvent.setProgress 0] =
        [0] := rfl
    rw [h1]
    split
    · rfl
    · rfl
  rw [hpw]
  have htail : ∀ x, x ∈ List.range n ++ (if (List.range n).any ok then [n] else []) →
      x ≤ n := by
    intro x hx
    rcases List.mem_append.mp hx with hr | ht
    · exact Nat.le_of_lt (List.mem_range.mp hr)
    · split at ht
      · rw [List.mem_singleton] at ht
        omega
      · simp at ht
  refine List.pairwise_cons.mpr ⟨fun y _ => Nat.zero_le y, ?_⟩
  refine List.pairwise_cons.mpr ⟨fun y _ => Nat.zero_le y, ?_⟩
  rw [List.pairwise_append]
  refine ⟨(List.pairwise_lt_range n).imp Nat.le_of_lt, ?_, ?_⟩
  · split
    · exact List.pairwise_singleton _ _
    · exact List.Pairwise.nil
  · intro a ha b hb
    have han : a < n := List.mem_range.mp ha
    split at hb
    · rw [List.mem_singleton] at hb
      omega
    · simp at hb

theorem le_getLastD_of_pairwise (d : Nat) (w : List Nat)
    (h : List.Pairwise (· ≤ ·) (d :: w)) : d ≤ w.getLastD d := by
  rcases List.mem_cons.mp (List.getLastD_mem_cons w d) with hm | hm
  · omega
  · exact (List.pairwise_cons.mp h).1 _ hm

theorem getLastD_mono_append (d : Nat) (w1 w2 : List Nat)
    (h : List.Pairwise (· ≤ ·) (d :: (w1 ++ w2))) :
    w1.getLastD d ≤ (w1 ++ w2).getLastD d := by
  induction w1 generalizing d with
  | nil => exact le_getLastD_of_pairwise d w2 (by simpa using h)
  | cons a as ih =>
    rw [List.getLastD_cons, List.cons_append, List.getLastD_cons]
    exact ih a (List.pairwise_cons.mp h).2

theorem progressAt_take_mono (n : Nat) (ok : Nat → Bool) (m m' : Nat) (hm : m ≤ m') :
    progressAt ((procTrace n ok).take m) ≤ progressAt ((procTrace n ok).take m') := by
  have h1 : (procTrace n ok).take m = ((procTrace n ok).take m').take m := by
    rw [List.take_take, Nat.min_eq_left hm]
  rw [progressAt_eq_writes, progressAt_eq_writes, h1]
  conv_rhs => rw [← List.take_append_drop m ((procTrace n ok).take m')]
  rw [progressWrites_append]
  apply getLastD_mono_append 0
  rw [← progressWrites_append, List.take_append_drop]
  have hsub : List.Sublist (0 :: progressWrites ((procTrace n ok).take m'))
      (0 :: progressWrites (procTrace n ok)) :=
    List.Sublist.cons₂ 0 (List.Sublist.filterMap _ (List.take_sublist m' (procTrace n ok)))
  exact List.Pairwise.sublist hsub (pairwise_progressWrites_procTrace n ok)

/-- Claim C8, counterexample: the claim is false in its "count of segments
started" part. In a two-segment all-success run, at the observation point
where segment 0's synthesis is in flight (it has started and not ended), the
stored progress is 0 while one segment has started: a mid-run status read
does not report the count of segments started. -/
theorem c8_counterexample_midrun_not_started_count :
    ProcEvent.synthStart 0 ∈ (procTrace 2 (fun _ => true)).take 4 ∧
      ProcEvent.synthEnd 0 true ∉ (procTrace 2 (fun _ => true)).take 4 ∧
      progressAt ((procTrace 2 (fun _ => true)).take 4) ≠
        startedAt ((procTrace 2 (fun _ => true)).take 4) := by
  decide

/-- Claim C8, amended: `progress := i` is written before segment `i`'s
synthesis begins (the write precedes the start event in the trace), and the
stored progress is monotonically non-decreasing over the whole run; but a
status read while segment `i`'s synthesis is in flight reports `i` — the
count of segments already finished (one less than the count started) — not
the count of segments started. -/
theorem c8_progress_semantics (n : Nat) (ok : Nat → Bool) (i : Nat) (h : i < n) :
    List.Sublist [ProcEvent.setProgress i, ProcEvent.synthStart i] (procTrace n ok) ∧
      (ProcEvent.synthStart i ∈ (procTrace n ok).take (3 * i + 4) ∧
        (∀ b : Bool, ProcEvent.synthEnd i b ∉ (procTrace n ok).take (3 * i + 4)) ∧
        progressAt ((procTrace n ok).take (3 * i + 4)) = i ∧
        finishedAt ((procTrace n ok).take (3 * i + 4)) = i ∧
        startedAt ((procTrace n ok).take (3 * i + 4)) = i + 1) ∧
      ∀ m m', m ≤ m' →
        progressAt ((procTrace n ok).take m) ≤ progressAt ((procTrace n ok).take m') := by
  refine ⟨?_, ⟨?_, ?_, ?_, ?_, ?_⟩, fun m m' hm => progressAt_take_mono n ok m m' hm⟩
  · obtain ⟨rest, hsplit⟩ := procTrace_split n ok i h
    rw [hsplit]
    exact ((List.Sublist.cons₂ _ (List.Sublist.cons₂ _ (List.nil_sublist _))).trans
      (List.sublist_append_right _ _)).trans (List.sublist_append_left _ _)
  · rw [procTrace_take_midsynth n ok i h]
    simp
  · intro b hmem
    rw [procTrace_take_midsynth n ok i h] at hmem
    rcases List.mem_append.mp hmem with hB | htail
    · rcases List.mem_append.mp hB with hH | hF
      · simp at hH
      · obtain ⟨j, hj, hjb⟩ := mem_flatten_segBlock ok (List.range i) _ hF
        have hji : j < i := List.mem_range.mp hj
        simp only [segBlock, List.mem_cons, List.mem_singleton, List.not_mem_nil] at hjb
        rcases hjb with h1 | h1 | h1
        · simp at h1
        · simp at h1
        · rcases h1 with h1 | h1
          · injection h1 with hij hb
            omega
          · exact h1
    · simp at htail
  · rw [procTrace_take_midsynth n ok i h, progressAt_eq_writes, progressWrites_append,
      show progressWrites [ProcEvent.setProgress i, ProcEvent.synthStart i] = [i] from rfl,
      List.getLastD_concat]
  · rw [procTrace_take_midsynth n ok i h, finishedAt_append, finishedAt_append,
      finishedAt_flatten_segBlock, List.length_range,
      show finishedAt [ProcEvent.setStatus "processing", ProcEvent.setProgress 0] = 0 from rfl,
      show finishedAt [ProcEvent.setProgress i, ProcEvent.synthStart i] = 0 from rfl]
    omega
  · rw [procTrace_take_midsynth n ok i h, startedAt_append, startedAt_append,
      startedAt_flatten_segBlock, List.length_range,
      show startedAt [ProcEvent.setStatus "processing", ProcEvent.setProgress 0] = 0 from rfl,
      show startedAt [ProcEvent.setProgress i, ProcEvent.synthStart i] = 1 from rfl]
    omega

/-- Witness for the amended Claim C8: a two-segment all-success run, observed
while segment 0's synthesis is in flight. -/
theorem c8_progress_semantics_witness :
    (0 : Nat) < 2 ∧ progressAt ((procTrace 2 (fun _ => true)).take (3 * 0 + 4)) = 0 :=
  ⟨by decide, (c8_progress_semantics 2 (fun _ => true) 0 (by decide)).2.1.2.2.1⟩
